import Mathlib

/-!
# Verification of the tracklet reconstruction core

Shallow embedding of `h5flow_modules/combined/tracklet_reco.py`
(`TrackletReconstruction`): the per-event cluster-then-fit loop
(`find_tracks`), the track geometry calculator (`calc_tracks` and its
helpers `_projected_limits`, `_track_residual`, `theta`, `phi`, `xyp`)
and the durable-id assignment of `run`.

External library calls (sklearn `DBSCAN.fit`, skimage `ransac`, sklearn
`PCA.fit`) are modelled by oracle parameters at the interface the source
uses them: a clustering oracle mapping the current eligibility mask to a
label per eligible slot, a robust-fit oracle mapping a cluster mask to
inlier flags, and a principal-axis oracle mapping centered points to the
(already unit-normalised) first principal component.  Everything the
source computes itself is translated directly.

Machine floats are modelled by exact rationals; the two transcendental
field computations of the track record (`length = sqrt(...)` and the
`atan2` angles) are kept in argument form in the record (`length_sq`,
`theta_arg`, `phi_arg`) so that every definition stays executable, and
the square root is applied at statement level where a claim needs it.
-/

namespace TrackletReco

/-! ## Cluster finder (`find_tracks`, lines 106–149) -/

/-- Configuration of `TrackletReconstruction` (lines 18–22, 41–45).  Only
`ransac_min_samples` is consulted directly by `find_tracks`; the DBSCAN
parameters and the remaining RANSAC parameters are internal to the external
clustering / robust-fit calls and hence absorbed into the oracles. -/
structure Config where
  ransacMinSamples : Nat
deriving DecidableEq

/-- Per-event mutable state of the `while True` loop of `find_tracks`
(lines 121–147): the per-hit labels `track_id[i]`, the eligibility mask
`iter_mask[i]`, and the local counter `current_track_id`. -/
structure EvState where
  trackId : List Int
  iterMask : List Bool
  currentTrackId : Int
deriving DecidableEq

/-- `_do_dbscan` (lines 188–199).  The sklearn `DBSCAN.fit` call is external
and modelled by the oracle `o` from the current eligibility mask to a label
per slot (for fixed per-event positions `xyz[i]`, the clustering is a function
of the mask alone).  As in the source, ineligible slots get the noise label:
`track_ids = np.zeros(len(mask))-1; track_ids[mask] = clustering.labels_`.
`takeD` normalises the oracle output to the mask's length. -/
def doDbscan (o : List Bool → List Int) (mask : List Bool) : List Int :=
  List.zipWith (fun b l => if b then l else -1) mask (List.takeD mask.length (o mask) (-1))

/-- The cluster membership mask `mask = track_ids == id_` (line 131). -/
def clusterMask (labels : List Int) (lab : Int) : List Bool :=
  labels.map (fun l => l == lab)

/-- `mask[mask] = inliers` (lines 136–137).  The skimage `ransac` call is
external and modelled by the oracle `rO` from the cluster mask to per-slot
inlier flags; writing the compacted inlier array back through the mask is the
pointwise conjunction of the mask with the flags. -/
def inlierMask (rO : List Bool → List Bool) (labels : List Int) (lab : Int) : List Bool :=
  List.zipWith (fun a b => a && b) (clusterMask labels lab)
    (List.takeD (clusterMask labels lab).length (rO (clusterMask labels lab)) false)

/-- `track_id[i, mask] = current_track_id` (line 143): overwrite the entries
selected by the mask with the new label. -/
def assignMask (m : List Bool) (tid : Int) (L : List Int) : List Int :=
  List.zipWith (fun b t => if b then tid else t) m L

/-- `iter_mask[i, mask] = False` (line 144): clear the entries selected by
the mask. -/
def removeMask (m L : List Bool) : List Bool :=
  List.zipWith (fun a b => if a then false else b) m L

/-- One iteration of the `for id_ in np.unique(track_ids)` body (lines
128–144), instrumented with a flag recording whether the RANSAC fit was
attempted.  A cluster whose size is at or below `ransac_min_samples` is
skipped without fitting (line 132); a fitted cluster with fewer than 2
inliers is discarded without touching the state (line 139); otherwise the
next local track id is assigned to the inliers and they are removed from
the eligibility mask (lines 142–144). -/
def processClusterI (cfg : Config) (rO : List Bool → List Bool) (labels : List Int)
    (lab : Int) (st : EvState) : EvState × Bool :=
  if (clusterMask labels lab).count true ≤ cfg.ransacMinSamples then (st, false)
  else
    if (inlierMask rO labels lab).count true < 2 then (st, true)
    else
      ({ trackId := assignMask (inlierMask rO labels lab) (st.currentTrackId + 1) st.trackId
         iterMask := removeMask (inlierMask rO labels lab) st.iterMask
         currentTrackId := st.currentTrackId + 1 }, true)

/-- The state component of `processClusterI`. -/
def processCluster (cfg : Config) (rO : List Bool → List Bool) (labels : List Int)
    (lab : Int) (st : EvState) : EvState :=
  (processClusterI cfg rO labels lab st).1

/-- The ascending list of non-noise cluster labels enumerated by
`for id_ in np.unique(track_ids)` with the `id_ == -1` entry skipped
(lines 128–130); `np.unique` returns sorted distinct values. -/
def uniqueLabels (labels : List Int) : List Int :=
  List.insertionSort (· ≤ ·) (labels.filter (fun l => !(l == -1))).dedup

/-- One iteration of the `while True` loop (lines 124–147): cluster the
currently eligible slots, process every non-noise cluster in ascending label
order, and report whether the loop breaks.  The break condition (line 146)
reads the labels of this round (`np.all(track_ids == -1)`) and the updated
eligibility mask (`not np.any(iter_mask[i])`). -/
def evRound (cfg : Config) (dO : List Bool → List Int) (rO : List Bool → List Bool)
    (st : EvState) : EvState × Bool :=
  let labels := doDbscan dO st.iterMask
  let st' := (uniqueLabels labels).foldl (fun s lab => processCluster cfg rO labels lab s) st
  (st', labels.all (fun l => l == -1) || !(st'.iterMask.any (fun b => b)))

/-- The `while True` loop of `find_tracks`.  The source has no iteration
bound; the explicit fuel lets the total model express a run that never
reaches the break condition (`none` = still running after `fuel` rounds). -/
def evLoop (cfg : Config) (dO : List Bool → List Int) (rO : List Bool → List Bool) :
    Nat → EvState → Option EvState
  | 0, _ => none
  | fuel + 1, st =>
    let r := evRound cfg dO rO st
    if r.2 then some r.1 else evLoop cfg dO rO fuel r.1

/-- Initial per-event state (lines 118–123): every slot unlabeled (`-1`),
eligibility mask `iter_mask = ~hits['id'].mask` (true exactly on valid hits),
`current_track_id = -1`. -/
def initState (valid : List Bool) : EvState :=
  { trackId := List.replicate valid.length (-1)
    iterMask := valid
    currentTrackId := -1 }

/-- `find_tracks` restricted to one event row `i` (lines 121–147): run the
cluster-then-fit loop to completion from the initial state.  The batch-level
`find_tracks` applies this to every event row independently and returns the
label arrays with invalid slots masked. -/
def findTracksEvent (cfg : Config) (dO : List Bool → List Int)
    (rO : List Bool → List Bool) (valid : List Bool) (fuel : Nat) : Option EvState :=
  evLoop cfg dO rO fuel (initState valid)

/-- The run never halts: no amount of fuel brings the loop of `find_tracks`
to its break condition. -/
def neverHalts (cfg : Config) (dO : List Bool → List Int) (rO : List Bool → List Bool)
    (st : EvState) : Prop :=
  ∀ fuel, evLoop cfg dO rO fuel st = none

/-- Loop invariant of `find_tracks` for one event with validity mask `valid`:
array lengths are preserved; eligible slots are valid; labeled slots are
valid and ineligible; every label is `-1` or lies in `[0, current_track_id]`;
every value of `[0, current_track_id]` is used by some slot; and the counter
never drops below `-1`. -/
structure WF (valid : List Bool) (st : EvState) : Prop where
  len_trackId : st.trackId.length = valid.length
  len_iterMask : st.iterMask.length = valid.length
  elig_valid : ∀ i, st.iterMask.getD i false = true → valid.getD i false = true
  labeled_valid : ∀ i, st.trackId.getD i (-1) ≠ -1 → valid.getD i false = true
  labeled_inelig : ∀ i, st.trackId.getD i (-1) ≠ -1 → st.iterMask.getD i false = false
  values_le : ∀ v ∈ st.trackId, v = -1 ∨ (0 ≤ v ∧ v ≤ st.currentTrackId)
  surj : ∀ k : Int, 0 ≤ k → k ≤ st.currentTrackId → k ∈ st.trackId
  cur_ge : -1 ≤ st.currentTrackId

/-! ## Track geometry (`calc_tracks` and helpers, lines 151–250)

Machine floats are modelled by exact rationals. -/

/-- Exact-rational model of a 3D position. -/
abbrev Vec3 := ℚ × ℚ × ℚ

/-- Componentwise vector sum. -/
def vadd (a b : Vec3) : Vec3 := (a.1 + b.1, a.2.1 + b.2.1, a.2.2 + b.2.2)

/-- Componentwise vector difference. -/
def vsub (a b : Vec3) : Vec3 := (a.1 - b.1, a.2.1 - b.2.1, a.2.2 - b.2.2)

/-- Scalar multiple. -/
def vsmul (c : ℚ) (a : Vec3) : Vec3 := (c * a.1, c * a.2.1, c * a.2.2)

/-- Dot product. -/
def vdot (a b : Vec3) : ℚ := a.1 * b.1 + a.2.1 * b.2.1 + a.2.2 * b.2.2

/-- Componentwise absolute value (`np.abs`). -/
def vabs (a : Vec3) : Vec3 := (|a.1|, |a.2.1|, |a.2.2|)

/-- Componentwise minimum. -/
def vmin (a b : Vec3) : Vec3 := (min a.1 b.1, min a.2.1 b.2.1, min a.2.2 b.2.2)

/-- Componentwise maximum. -/
def vmax (a b : Vec3) : Vec3 := (max a.1 b.1, max a.2.1 b.2.1, max a.2.2 b.2.2)

/-- `np.clip(x, lo, hi)` componentwise. -/
def vclip (x lo hi : Vec3) : Vec3 := vmin (vmax x lo) hi

/-- Vector sum of a list. -/
def vsum (l : List Vec3) : Vec3 := l.foldl vadd (0, 0, 0)

/-- `np.mean(..., axis=0)`: componentwise mean. -/
def vmean (l : List Vec3) : Vec3 := vsmul (1 / (l.length : ℚ)) (vsum l)

/-- Squared Euclidean norm. -/
def sqNorm (a : Vec3) : ℚ := vdot a a

/-- `np.amin(xyz, axis=0)`: componentwise minimum over a (nonempty) list. -/
def vminList (l : List Vec3) : Vec3 := l.foldl vmin (l.headD (0, 0, 0))

/-- `np.amax(xyz, axis=0)`: componentwise maximum over a (nonempty) list. -/
def vmaxList (l : List Vec3) : Vec3 := l.foldl vmax (l.headD (0, 0, 0))

/-- `np.min` of a (nonempty) list of scalars. -/
def qminList (l : List ℚ) : ℚ := l.foldl min (l.headD 0)

/-- `np.max` of a (nonempty) list of scalars. -/
def qmaxList (l : List ℚ) : ℚ := l.foldl max (l.headD 0)

/-- `np.min` of a (nonempty) list of integers. -/
def iminList (l : List Int) : Int := l.foldl min (l.headD 0)

/-- `np.max` of a (nonempty) list of integers. -/
def imaxList (l : List Int) : Int := l.foldl max (l.headD 0)

/-- One detector hit: the fields of the `charge/hits` row consumed here —
validity (`~hits['id'].mask`), readout-plane position `px, py`, timestamp
`ts`, charge `q`, and the io addressing consumed by the z lookup. -/
structure Hit where
  valid : Bool
  px : ℚ
  py : ℚ
  ts : Int
  q : ℚ
  iog : Nat
  ioc : Nat
deriving DecidableEq

/-- Calibration inputs of `_hit_xyz` (lines 93–104): the drift velocity and
clock scale (`resources['LArData'].v_drift`, `resources['RunData'].crs_ticks`)
and the external channel-to-z lookup `resources['Geometry'].get_z_coordinate`,
consumed as a pure function. -/
structure Calib where
  vDrift : ℚ
  crsTicks : ℚ
  getZ : Nat → Nat → ℚ → ℚ

/-- `_hit_xyz` for one hit (lines 93–104): `drift_t = ts - t0`,
`drift_d = drift_t * (v_drift * crs_ticks)`, `z = get_z(iogroup, iochannel,
drift_d)`, position `(px, py, z)`. -/
def hitXyz (cal : Calib) (t0 : Int) (h : Hit) : Vec3 :=
  (h.px, h.py, cal.getZ h.iog h.ioc (((h.ts - t0 : Int) : ℚ) * (cal.vDrift * cal.crsTicks)))

/-- The member hits of slot `(i, j)`: `mask = (track_ids[i] == j) &
(~track_ids.mask[i])` (line 160), i.e. the valid hits carrying label `j`
(the label array's mask is the hits' validity mask). -/
def memberHits (hitsRow : List Hit) (labelRow : List Int) (j : Int) : List Hit :=
  ((hitsRow.zip labelRow).filter (fun p => (p.2 == j) && p.1.valid)).map (fun p => p.1)

/-- `_do_pca` (lines 215–226): the centroid is the mean member position; the
axis is the first principal component of the centered positions.  The sklearn
`PCA.fit` is external and modelled by the oracle `pcaO` on the centered
points; sklearn returns a unit vector, on which the source's renormalisation
`axis / norm(axis)` is the identity. -/
def doPca (pcaO : List Vec3 → Vec3) (pts : List Vec3) : Vec3 × Vec3 :=
  (vmean pts, pcaO (pts.map (fun p => vsub p (vmean pts))))

/-- `_projected_limits` (lines 228–233): project the member positions on the
axis; the min- and max-projection points, clipped componentwise to the
bounding box of the member positions, are the spatial endpoints
`(r_min, r_max)`. -/
def projectedLimits (centroid axis : Vec3) (pts : List Vec3) : Vec3 × Vec3 :=
  (vclip (vadd centroid (vsmul (qminList (pts.map (fun p => vdot (vsub p centroid) axis))) axis))
     (vminList pts) (vmaxList pts),
   vclip (vadd centroid (vsmul (qmaxList (pts.map (fun p => vdot (vsub p centroid) axis))) axis))
     (vminList pts) (vmaxList pts))

/-- `_track_residual` (lines 235–238): mean absolute componentwise deviation
of the member positions from their projections onto the fitted line. -/
def trackResidual (centroid axis : Vec3) (pts : List Vec3) : Vec3 :=
  vmean (pts.map (fun p =>
    vabs (vsub p (vadd centroid (vsmul (vdot (vsub p centroid) axis) axis)))))

/-- Argument pair of `theta` (lines 240–241): the source computes
`arctan2(norm(axis[:2]), axis[-1])`; the first argument is kept as its square
so the definition stays rational (`theta = atan2(sqrt(fst), snd)`). -/
def thetaArg (axis : Vec3) : ℚ × ℚ := (axis.1 ^ 2 + axis.2.1 ^ 2, axis.2.2)

/-- Argument pair of `phi = arctan2(axis[1], axis[0])` (lines 243–244). -/
def phiArg (axis : Vec3) : ℚ × ℚ := (axis.2.1, axis.1)

/-- `xyp` (lines 246–250): the (x, y) of the axis/centroid line's intersection
with the `z = 0` plane, falling back to the centroid's (x, y) when the axis
has zero z-component; the division `s = -centroid[-1] / axis[-1]` is taken
only in the nonzero branch. -/
def xyp (axis centroid : Vec3) : ℚ × ℚ :=
  if axis.2.2 = 0 then (centroid.1, centroid.2.1)
  else
    ((vadd centroid (vsmul (-centroid.2.2 / axis.2.2) axis)).1,
     (vadd centroid (vsmul (-centroid.2.2 / axis.2.2) axis)).2.1)

/-- One row of `tracklet_dtype` (lines 24–32) as filled by `calc_tracks`
(lines 171–182), minus the durable `id` (unset until `run` places it).  The
two transcendental computations are kept in argument form so definitions stay
executable: the source's `length` is `sqrt(length_sq)` and its `theta`/`phi`
are `arctan2` of `(sqrt(theta_arg.1), theta_arg.2)` and of `phi_arg`; the
square root is applied at statement level where a claim needs it.  The
source's `end` field is named `stop` (`end` is reserved); its time component
is `ts_end - t0`, an integer. -/
structure Track where
  theta_arg : ℚ × ℚ
  phi_arg : ℚ × ℚ
  xp : ℚ
  yp : ℚ
  nhit : Int
  q : ℚ
  ts_start : Int
  ts_end : Int
  residual : Vec3
  length_sq : ℚ
  start : Vec3 × Int
  stop : Vec3 × Int
deriving DecidableEq

/-- The body of the double loop of `calc_tracks` (lines 158–184) for one slot:
a slot whose track has fewer than 2 member hits stays empty/masked (`none`,
modelling `tracks_mask[i,j]` left `True`); otherwise the geometry record is
computed from the member hits.  Line 182 of the source writes `r_min` — not
`r_max` — into the spatial part of `end`. -/
def calcSlot (cal : Calib) (pcaO : List Vec3 → Vec3) (t0 : Int)
    (hitsRow : List Hit) (labelRow : List Int) (j : Int) : Option Track :=
  if (memberHits hitsRow labelRow j).length < 2 then none
  else
    let members := memberHits hitsRow labelRow j
    let pts := members.map (hitXyz cal t0)
    let ca := doPca pcaO pts
    let rr := projectedLimits ca.1 ca.2 pts
    some
      { theta_arg := thetaArg ca.2
        phi_arg := phiArg ca.2
        xp := (xyp ca.2 ca.1).1
        yp := (xyp ca.2 ca.1).2
        nhit := members.length
        q := (members.map (fun h => h.q)).foldl (· + ·) 0
        ts_start := iminList (members.map (fun h => h.ts))
        ts_end := imaxList (members.map (fun h => h.ts))
        residual := trackResidual ca.1 ca.2 pts
        length_sq := sqNorm (vsub rr.2 rr.1)
        start := (rr.1, iminList (members.map (fun h => h.ts)) - t0)
        stop := (rr.1, imaxList (members.map (fun h => h.ts)) - t0) }

/-- The unmasked entries of the batch's label table: the labels sitting at
valid hit slots (`~track_ids.mask`, which is `~hits['id'].mask`). -/
def validLabels (hitsT : List (List Hit)) (labelT : List (List Int)) : List Int :=
  ((hitsT.zip labelT).map (fun p =>
    (p.1.zip p.2).filterMap (fun q => if q.1.valid then some q.2 else none))).flatten

/-- `n_tracks = track_ids.max() + 1 if np.count_nonzero(~track_ids.mask)
else 1` (lines 154–155): the masked maximum ranges over the labels at valid
hit slots.  Note `+ 1` happens before the value is used as a width, so a
batch whose valid hits are all unlabeled (`max == -1`) yields width 0. -/
def nTracks (hitsT : List (List Hit)) (labelT : List (List Int)) : Nat :=
  if (validLabels hitsT labelT).isEmpty then 1
  else (imaxList (validLabels hitsT labelT) + 1).toNat

/-- `calc_tracks` (lines 151–186): a dense rectangular table with one row per
event (`len(t0)`) and `n_tracks` slots per row; `none` models a masked slot. -/
def calcTracks (cal : Calib) (pcaO : List Vec3 → Vec3) (hitsT : List (List Hit))
    (t0s : List Int) (labelT : List (List Int)) : List (List (Option Track)) :=
  (List.range t0s.length).map (fun (i : Nat) =>
    (List.range (nTracks hitsT labelT)).map (fun (j : Nat) =>
      calcSlot cal pcaO (t0s.getD i 0) (hitsT.getD i []) (labelT.getD i []) (j : Int)))

/-! ## Track emitter (`run`, lines 67–91) -/

/-- The durable-id placement of `run` (lines 75–80) on one row of track-slot
validity flags: `np.place(tracks['id'], tracks_mask, np.r_[tracks_slice])`
walks the valid slots in order and hands out consecutive ids starting at
`c`; it returns the filled row and the next free id. -/
def placeRow : Nat → List Bool → List (Option Nat) × Nat
  | c, [] => ([], c)
  | c, true :: r => ((some c) :: (placeRow (c + 1) r).1, (placeRow (c + 1) r).2)
  | c, false :: r => (none :: (placeRow c r).1, (placeRow c r).2)

/-- The durable-id placement over the whole batch table, row-major over
(event, local track-id), starting from the first id `s` of the reserved
contiguous range `tracks_slice = [s, s + n_tracks)`. -/
def placeTable : Nat → List (List Bool) → List (List (Option Nat))
  | _, [] => []
  | c, row :: rows => (placeRow c row).1 :: placeTable (placeRow c row).2 rows

/-- The durable ids of a placed table, read back in row-major order. -/
def assignedIds (tbl : List (List (Option Nat))) : List Nat :=
  tbl.flatten.filterMap (fun x => x)

/-! ## Concrete inputs used by counterexamples and witnesses -/

/-- A calibration whose z lookup is identically 0 (all hits in the z = 0
plane, making the endpoint arithmetic exact and easy to read). -/
def bugCal : Calib := { vDrift := 0, crsTicks := 0, getZ := fun _ _ _ => 0 }

/-- A valid hit at `(x, 0, 0)` with unit charge and timestamp `t`. -/
def bugHit (x : ℚ) (t : Int) : Hit :=
  { valid := true, px := x, py := 0, ts := t, q := 1, iog := 0, ioc := 0 }

/-- An invalid (masked/padding) hit. -/
def invHit : Hit :=
  { valid := false, px := 0, py := 0, ts := 0, q := 0, iog := 0, ioc := 0 }

/-- Failing input for the end-coordinate defect of `calc_tracks`: one slot of
one event holding two valid hits at x = 0 and x = 2 (same y, both at z = 0),
both labeled 0, with principal axis (1, 0, 0). -/
def bugSlot : Option Track :=
  calcSlot bugCal (fun _ => (1, 0, 0)) 0 [bugHit 0 0, bugHit 2 5] [0, 0] 0

/-! ## Generic list lemmas -/

theorem getD_zipWith {α β γ : Type} (f : α → β → γ) (a : List α) (b : List β)
    (i : Nat) (d₁ : α) (d₂ : β) (d₃ : γ) (h₁ : i < a.length) (h₂ : i < b.length) :
    (List.zipWith f a b).getD i d₃ = f (a.getD i d₁) (b.getD i d₂) := by
  rw [List.getD_eq_getElem _ _ (show i < (List.zipWith f a b).length by
      rw [List.length_zipWith]; omega),
    List.getD_eq_getElem _ _ h₁, List.getD_eq_getElem _ _ h₂, List.getElem_zipWith]

theorem removeMask_cons (x : Bool) (m : List Bool) (y : Bool) (L : List Bool) :
    removeMask (x :: m) (y :: L) = (if x then false else y) :: removeMask m L := rfl

theorem count_removeMask_le (m L : List Bool) :
    (removeMask m L).count true ≤ L.count true := by
  induction m generalizing L with
  | nil => simp [removeMask]
  | cons x m ih =>
    cases L with
    | nil => simp [removeMask]
    | cons y L =>
      rw [removeMask_cons, List.count_cons, List.count_cons]
      have h := ih L
      cases x <;> cases y <;> simp <;> omega

theorem count_removeMask_lt (m L : List Bool) (i : Nat) (him : i < m.length)
    (hiL : i < L.length) (hm : m.getD i false = true) (hL : L.getD i false = true) :
    (removeMask m L).count true < L.count true := by
  induction m generalizing L i with
  | nil => simp at him
  | cons x m ih =>
    cases L with
    | nil => simp at hiL
    | cons y L =>
      cases i with
      | zero =>
        simp only [List.getD_cons_zero] at hm hL
        subst hm; subst hL
        have h := count_removeMask_le m L
        rw [removeMask_cons, List.count_cons, List.count_cons]
        simp
        omega
      | succ i =>
        simp only [List.getD_cons_succ] at hm hL
        have h := ih L i (by simpa using him) (by simpa using hiL) hm hL
        rw [removeMask_cons, List.count_cons, List.count_cons]
        cases x <;> cases y <;> simp <;> omega

theorem count_true_le_of_pointwise (a b : List Bool)
    (h : ∀ i, a.getD i false = true → b.getD i false = true) :
    a.count true ≤ b.count true := by
  induction a generalizing b with
  | nil => simp
  | cons x a ih =>
    cases b with
    | nil =>
      have hx : x = false := by
        cases x with
        | false => rfl
        | true => exact absurd (h 0 rfl) (by simp)
      subst hx
      have : a.count true ≤ ([] : List Bool).count true :=
        ih [] (fun i hi => absurd (h (i + 1) (by simpa using hi)) (by simp))
      simpa using this
    | cons y b =>
      have ht := ih b (fun i hi => h (i + 1) (by simpa using hi))
      cases x with
      | false => simp [List.count_cons]; omega
      | true =>
        have hy : y = true := h 0 rfl
        subst hy
        simp [List.count_cons]; omega

theorem exists_getD_of_count_pos (l : List Bool) (h : 0 < l.count true) :
    ∃ i, i < l.length ∧ l.getD i false = true := by
  have hm : true ∈ l := List.count_pos_iff.mp h
  obtain ⟨n, hn, he⟩ := List.mem_iff_getElem.mp hm
  exact ⟨n, hn, by rw [List.getD_eq_getElem _ _ hn]; exact he⟩

theorem foldl_fix {α β : Type} (f : β → α → β) (b : β) (L : List α)
    (h : ∀ a ∈ L, f b a = b) : L.foldl f b = b := by
  induction L with
  | nil => rfl
  | cons x L ih =>
    rw [List.foldl_cons, h x (List.mem_cons_self x L)]
    exact ih (fun a ha => h a (List.mem_cons_of_mem x ha))

theorem le_foldl_max (l : List Int) (a : Int) : a ≤ l.foldl max a := by
  induction l generalizing a with
  | nil => simp
  | cons x l ih => exact le_trans (le_max_left a x) (ih (max a x))

theorem mem_le_foldl_max (l : List Int) (a x : Int) (hx : x ∈ l) : x ≤ l.foldl max a := by
  induction l generalizing a with
  | nil => simp at hx
  | cons y l ih =>
    rcases List.mem_cons.mp hx with h | h
    · subst h; exact le_trans (le_max_right a x) (le_foldl_max l (max a x))
    · exact ih (max a y) h

theorem foldl_max_le (l : List Int) (a c : Int) (ha : a ≤ c) (hl : ∀ x ∈ l, x ≤ c) :
    l.foldl max a ≤ c := by
  induction l generalizing a with
  | nil => simpa using ha
  | cons y l ih =>
    exact ih (max a y) (max_le ha (hl y (List.mem_cons_self y l)))
      (fun x hx => hl x (List.mem_cons_of_mem _ hx))

theorem headD_mem (l : List Int) (h : l ≠ []) : l.headD 0 ∈ l := by
  cases l with
  | nil => exact absurd rfl h
  | cons x t => exact List.mem_cons_self x t

theorem mem_le_imaxList (l : List Int) (x : Int) (hx : x ∈ l) : x ≤ imaxList l :=
  mem_le_foldl_max l (l.headD 0) x hx

theorem imaxList_le (l : List Int) (c : Int) (hne : l ≠ []) (hl : ∀ x ∈ l, x ≤ c) :
    imaxList l ≤ c :=
  foldl_max_le l _ c (hl _ (headD_mem l hne)) hl

/-! ## Structural lemmas about the cluster finder -/

theorem length_doDbscan (o : List Bool → List Int) (mask : List Bool) :
    (doDbscan o mask).length = mask.length := by
  simp [doDbscan, List.length_zipWith, List.takeD_length]

theorem doDbscan_elig (o : List Bool → List Int) (mask : List Bool) (i : Nat)
    (h : (doDbscan o mask).getD i (-1) ≠ -1) :
    mask.getD i false = true ∧ i < mask.length := by
  by_cases hi : i < mask.length
  · refine ⟨?_, hi⟩
    by_contra hmask
    have hmf : mask.getD i false = false := by
      cases hb : mask.getD i false with
      | false => rfl
      | true => exact absurd hb hmask
    apply h
    rw [doDbscan, getD_zipWith _ mask _ i false (-1) (-1) hi
      (by rw [List.takeD_length]; exact hi), hmf]
    simp
  · exact absurd (List.getD_eq_default _ _ (by rw [length_doDbscan]; omega)) h

theorem length_clusterMask (labels : List Int) (lab : Int) :
    (clusterMask labels lab).length = labels.length := by
  simp [clusterMask]

theorem clusterMask_getD (labels : List Int) (lab : Int) (i : Nat) (hi : i < labels.length) :
    (clusterMask labels lab).getD i false = (labels.getD i (-1) == lab) := by
  rw [clusterMask, List.getD_eq_getElem _ _ (by simpa using hi), List.getElem_map,
    List.getD_eq_getElem _ _ hi]

theorem length_inlierMask (rO : List Bool → List Bool) (labels : List Int) (lab : Int) :
    (inlierMask rO labels lab).length = labels.length := by
  simp [inlierMask, List.length_zipWith, List.takeD_length, length_clusterMask]

theorem inlierMask_sub (rO : List Bool → List Bool) (labels : List Int) (lab : Int) (i : Nat)
    (h : (inlierMask rO labels lab).getD i false = true) :
    labels.getD i (-1) = lab ∧ i < labels.length := by
  by_cases hi : i < labels.length
  · refine ⟨?_, hi⟩
    have hcm : i < (clusterMask labels lab).length := by rw [length_clusterMask]; exact hi
    rw [inlierMask, getD_zipWith _ _ _ i false false false hcm
      (by rw [List.takeD_length]; exact hcm)] at h
    have hc : (clusterMask labels lab).getD i false = true := (Bool.and_eq_true _ _).mp h |>.1
    rw [clusterMask_getD _ _ _ hi] at hc
    exact eq_of_beq hc
  · rw [List.getD_eq_default _ _ (by rw [length_inlierMask]; omega)] at h
    simp at h

theorem uniqueLabels_nodup (labels : List Int) : (uniqueLabels labels).Nodup :=
  (List.perm_insertionSort (· ≤ ·) (labels.filter (fun l => !(l == -1))).dedup).symm.nodup
    (List.nodup_dedup _)

theorem uniqueLabels_mem (labels : List Int) (lab : Int) :
    lab ∈ uniqueLabels labels ↔ lab ∈ labels ∧ lab ≠ -1 := by
  rw [uniqueLabels, List.mem_insertionSort, List.mem_dedup, List.mem_filter]
  simp

theorem processClusterI_skip (cfg : Config) (rO : List Bool → List Bool) (labels : List Int)
    (lab : Int) (st : EvState)
    (h : (clusterMask labels lab).count true ≤ cfg.ransacMinSamples) :
    processClusterI cfg rO labels lab st = (st, false) := by
  rw [processClusterI, if_pos h]

theorem processClusterI_reject (cfg : Config) (rO : List Bool → List Bool) (labels : List Int)
    (lab : Int) (st : EvState)
    (h : ¬ (clusterMask labels lab).count true ≤ cfg.ransacMinSamples)
    (h2 : (inlierMask rO labels lab).count true < 2) :
    processClusterI cfg rO labels lab st = (st, true) := by
  rw [processClusterI, if_neg h, if_pos h2]

theorem processClusterI_accept (cfg : Config) (rO : List Bool → List Bool) (labels : List Int)
    (lab : Int) (st : EvState)
    (h : ¬ (clusterMask labels lab).count true ≤ cfg.ransacMinSamples)
    (h2 : ¬ (inlierMask rO labels lab).count true < 2) :
    processClusterI cfg rO labels lab st =
      ({ trackId := assignMask (inlierMask rO labels lab) (st.currentTrackId + 1) st.trackId
         iterMask := removeMask (inlierMask rO labels lab) st.iterMask
         currentTrackId := st.currentTrackId + 1 }, true) := by
  rw [processClusterI, if_neg h, if_neg h2]

theorem processCluster_cases (cfg : Config) (rO : List Bool → List Bool) (labels : List Int)
    (lab : Int) (st : EvState) :
    processCluster cfg rO labels lab st = st ∨
      (processCluster cfg rO labels lab st =
        { trackId := assignMask (inlierMask rO labels lab) (st.currentTrackId + 1) st.trackId
          iterMask := removeMask (inlierMask rO labels lab) st.iterMask
          currentTrackId := st.currentTrackId + 1 }
        ∧ 2 ≤ (inlierMask rO labels lab).count true) := by
  unfold processCluster
  by_cases h : (clusterMask labels lab).count true ≤ cfg.ransacMinSamples
  · left; rw [processClusterI_skip cfg rO labels lab st h]
  · by_cases h2 : (inlierMask rO labels lab).count true < 2
    · left; rw [processClusterI_reject cfg rO labels lab st h h2]
    · right
      rw [processClusterI_accept cfg rO labels lab st h h2]
      exact ⟨rfl, by omega⟩

theorem length_removeMask (m L : List Bool) :
    (removeMask m L).length = min m.length L.length := by
  simp [removeMask, List.length_zipWith]

theorem length_assignMask (m : List Bool) (tid : Int) (L : List Int) :
    (assignMask m tid L).length = min m.length L.length := by
  simp [assignMask, List.length_zipWith]

theorem getD_removeMask (m L : List Bool) (i : Nat) (h1 : i < m.length) (h2 : i < L.length) :
    (removeMask m L).getD i false = if m.getD i false then false else L.getD i false :=
  getD_zipWith _ m L i false false false h1 h2

theorem getD_assignMask (m : List Bool) (tid : Int) (L : List Int) (i : Nat)
    (h1 : i < m.length) (h2 : i < L.length) :
    (assignMask m tid L).getD i (-1) = if m.getD i false then tid else L.getD i (-1) :=
  getD_zipWith _ m L i false (-1) (-1) h1 h2

/-- Processing the non-noise clusters of one round either returns to the
round's starting state or strictly shrinks the eligible set: every accepted
cluster removes at least 2 slots that were eligible when the round started,
and rejected or skipped clusters change nothing. -/
theorem fold_dichotomy (cfg : Config) (rO : List Bool → List Bool) (labels : List Int)
    (st : EvState)
    (hlab : ∀ i, labels.getD i (-1) ≠ -1 → st.iterMask.getD i false = true)
    (hlen : labels.length = st.iterMask.length) :
    ∀ (L : List Int) (stk : EvState),
      L.Nodup →
      (∀ lab ∈ L, lab ≠ -1) →
      stk.iterMask.length = st.iterMask.length →
      (∀ i, labels.getD i (-1) ∈ L → stk.iterMask.getD i false = st.iterMask.getD i false) →
      (stk = st ∨ stk.iterMask.count true < st.iterMask.count true) →
      stk.iterMask.count true ≤ st.iterMask.count true →
      ((L.foldl (fun s lab => processCluster cfg rO labels lab s) stk) = st ∨
        (L.foldl (fun s lab => processCluster cfg rO labels lab s) stk).iterMask.count true
          < st.iterMask.count true)
      ∧ (L.foldl (fun s lab => processCluster cfg rO labels lab s) stk).iterMask.count true
          ≤ st.iterMask.count true := by
  intro L
  induction L with
  | nil => intro stk _ _ _ _ hd hle; exact ⟨hd, hle⟩
  | cons lab L ih =>
    intro stk hnd hne hlenk huntouched hd hle
    rw [List.foldl_cons]
    rcases processCluster_cases cfg rO labels lab stk with hstep | ⟨hstep, hcnt⟩
    · rw [hstep]
      exact ih stk (List.nodup_cons.mp hnd).2 (fun l hl => hne l (List.mem_cons_of_mem _ hl))
        hlenk (fun i hi => huntouched i (List.mem_cons_of_mem _ hi)) hd hle
    · rw [hstep]
      have hlabne : lab ≠ -1 := hne lab (List.mem_cons_self _ _)
      obtain ⟨i, hi_len, hi⟩ := exists_getD_of_count_pos (inlierMask rO labels lab) (by omega)
      obtain ⟨hlab_i, hi_lab⟩ := inlierMask_sub rO labels lab i hi
      have hstk_i : stk.iterMask.getD i false = true := by
        rw [huntouched i (by rw [hlab_i]; exact List.mem_cons_self _ _)]
        exact hlab i (by rw [hlab_i]; exact hlabne)
      have hlt : (removeMask (inlierMask rO labels lab) stk.iterMask).count true
          < stk.iterMask.count true :=
        count_removeMask_lt _ _ i hi_len (by omega) hi hstk_i
      have hlt' : (removeMask (inlierMask rO labels lab) stk.iterMask).count true
          < st.iterMask.count true := lt_of_lt_of_le hlt hle
      have hlen1 : (removeMask (inlierMask rO labels lab) stk.iterMask).length
          = st.iterMask.length := by
        rw [length_removeMask, length_inlierMask, hlen, hlenk]; omega
      have huntouched1 : ∀ i', labels.getD i' (-1) ∈ L →
          (removeMask (inlierMask rO labels lab) stk.iterMask).getD i' false
            = st.iterMask.getD i' false := by
        intro i' hi'
        by_cases hb : i' < st.iterMask.length
        · rw [getD_removeMask _ _ i' (by rw [length_inlierMask, hlen]; exact hb)
            (by rw [hlenk]; exact hb)]
          have hfalse : (inlierMask rO labels lab).getD i' false = false := by
            cases hc : (inlierMask rO labels lab).getD i' false with
            | false => rfl
            | true =>
              obtain ⟨heq, _⟩ := inlierMask_sub rO labels lab i' hc
              rw [heq] at hi'
              exact absurd hi' (List.nodup_cons.mp hnd).1
          rw [hfalse]
          simpa using huntouched i' (List.mem_cons_of_mem _ hi')
        · rw [List.getD_eq_default _ _ (by rw [hlen1]; omega),
            List.getD_eq_default _ _ (by omega)]
      exact ih _ (List.nodup_cons.mp hnd).2 (fun l hl => hne l (List.mem_cons_of_mem _ hl))
        hlen1 huntouched1 (Or.inr hlt') (le_of_lt hlt')

/-- One clustering round either strictly shrinks the eligible set or leaves
the whole per-event state unchanged. -/
theorem evRound_dichotomy (cfg : Config) (dO : List Bool → List Int)
    (rO : List Bool → List Bool) (st : EvState) :
    (evRound cfg dO rO st).1 = st ∨
      (evRound cfg dO rO st).1.iterMask.count true < st.iterMask.count true :=
  (fold_dichotomy cfg rO (doDbscan dO st.iterMask) st
    (fun i hi => (doDbscan_elig dO st.iterMask i hi).1)
    (length_doDbscan dO st.iterMask)
    (uniqueLabels (doDbscan dO st.iterMask)) st
    (uniqueLabels_nodup _)
    (fun lab hm => ((uniqueLabels_mem _ _).mp hm).2)
    rfl (fun _ _ => rfl) (Or.inl rfl) le_rfl).1

/-- A round that returns to its own starting state without signalling the
break makes the loop run forever. -/
theorem evLoop_none_of_fixpoint (cfg : Config) (dO : List Bool → List Int)
    (rO : List Bool → List Bool) (st : EvState)
    (h : evRound cfg dO rO st = (st, false)) :
    ∀ fuel, evLoop cfg dO rO fuel st = none := by
  intro fuel
  induction fuel with
  | zero => rfl
  | succ fuel ih =>
    simp only [evLoop, h]
    simpa using ih

/-- If a round fixes the state, any state the loop halts in is that state. -/
theorem evLoop_fix_state (cfg : Config) (dO : List Bool → List Int)
    (rO : List Bool → List Bool) (st : EvState)
    (h : (evRound cfg dO rO st).1 = st) :
    ∀ fuel st', evLoop cfg dO rO fuel st = some st' → st' = st := by
  intro fuel
  induction fuel with
  | zero => intro st' hz; exact absurd hz (by simp [evLoop])
  | succ fuel ih =>
    intro st' hs
    simp only [evLoop] at hs
    rw [h] at hs
    split at hs
    · exact (Option.some.inj hs).symm
    · exact ih st' hs

/-- In an event with fewer than 2 valid hits, every round fixes the initial
state: any cluster's inliers sit on valid hits, so fewer than 2 inliers ever
exist and no cluster is accepted. -/
theorem evRound_degenerate (cfg : Config) (dO : List Bool → List Int)
    (rO : List Bool → List Bool) (valid : List Bool) (hdeg : valid.count true < 2) :
    (evRound cfg dO rO (initState valid)).1 = initState valid := by
  show (uniqueLabels (doDbscan dO (initState valid).iterMask)).foldl
      (fun s lab => processCluster cfg rO (doDbscan dO (initState valid).iterMask) lab s)
      (initState valid) = initState valid
  apply foldl_fix
  intro lab hlabmem
  have hlabne : lab ≠ -1 := ((uniqueLabels_mem _ _).mp hlabmem).2
  have hpt : ∀ i, (inlierMask rO (doDbscan dO valid) lab).getD i false = true →
      valid.getD i false = true := by
    intro i hi
    obtain ⟨heq, _⟩ := inlierMask_sub rO _ lab i hi
    exact (doDbscan_elig dO valid i (by rw [heq]; exact hlabne)).1
  have hcnt : (inlierMask rO (doDbscan dO valid) lab).count true < 2 :=
    lt_of_le_of_lt (count_true_le_of_pointwise _ _ hpt) hdeg
  rcases processCluster_cases cfg rO (doDbscan dO valid) lab (initState valid) with hc | ⟨_, hc2⟩
  · exact hc
  · omega

/-- Claim C2, counterexample: with `ransac_min_samples = 2` and a clustering
oracle that labels the lone eligible hit as the singleton cluster `0` (what
DBSCAN returns when `min_samples = 1`), the round neither strictly shrinks
the eligible set nor is the last round — the cluster is skipped by the size
guard, the labels are not all noise, and an eligible hit remains, so the
state recurs unchanged with the break condition false. -/
theorem claim_C2_counterexample :
    evRound ⟨2⟩ (fun _ => [0]) (fun _ => []) (initState [true]) = (initState [true], false)
      ∧ (initState [true]).iterMask.count true = 1 := by decide

/-- Claim C2, amended: each clustering round of `find_tracks` either strictly
shrinks the eligible set or leaves the per-event state unchanged, and the
loop halts as soon as a round's clustering yields only noise or no eligible
points remain after it; but a round that finds a non-noise cluster and
accepts none leaves the state unchanged without halting, so termination is
not guaranteed for every input and configuration. -/
theorem claim_C2_amended (cfg : Config) (dO : List Bool → List Int)
    (rO : List Bool → List Bool) (st : EvState) :
    ((evRound cfg dO rO st).1 = st ∨
      (evRound cfg dO rO st).1.iterMask.count true < st.iterMask.count true)
    ∧ (((doDbscan dO st.iterMask).all (fun l => l == -1) = true ∨
        (evRound cfg dO rO st).1.iterMask.any (fun b => b) = false) →
       (evRound cfg dO rO st).2 = true) := by
  refine ⟨evRound_dichotomy cfg dO rO st, ?_⟩
  intro h
  show ((doDbscan dO st.iterMask).all (fun l => l == -1)
      || !((evRound cfg dO rO st).1.iterMask.any (fun b => b))) = true
  rcases h with h | h
  · rw [h]; simp
  · rw [h]; simp

/-- Witness for the amended C2 at a concrete accepting round: the eligible
set strictly shrinks (2 hits accepted) and the loop then halts. -/
theorem claim_C2_amended_witness :
    ((evRound ⟨1⟩ (fun _ => [0, 0]) (fun _ => [true, true]) (initState [true, true])).1
        = initState [true, true] ∨
      (evRound ⟨1⟩ (fun _ => [0, 0]) (fun _ => [true, true])
          (initState [true, true])).1.iterMask.count true
        < (initState [true, true]).iterMask.count true)
    ∧ (evRound ⟨1⟩ (fun _ => [0, 0]) (fun _ => [true, true]) (initState [true, true])).2 = true :=
  ⟨(claim_C2_amended ⟨1⟩ (fun _ => [0, 0]) (fun _ => [true, true]) (initState [true, true])).1,
   (claim_C2_amended ⟨1⟩ (fun _ => [0, 0]) (fun _ => [true, true]) (initState [true, true])).2
     (by decide)⟩

/-- Claim C3, counterexample: a cluster of 3 hits is fitted and discarded for
having a single inlier; the state (labels and eligibility) is left unchanged,
the round does not break, and the next round's clustering input contains the
discarded cluster's points again — they remain eligible, contradicting the
claim that they are not eligible in subsequent rounds. -/
theorem claim_C3_counterexample :
    processClusterI ⟨2⟩ (fun _ => [true, false, false]) [0, 0, 0] 0 (initState [true, true, true])
        = (initState [true, true, true], true)
    ∧ (inlierMask (fun _ => [true, false, false]) [0, 0, 0] 0).count true = 1
    ∧ evRound ⟨2⟩ (fun _ => [0, 0, 0]) (fun _ => [true, false, false])
        (initState [true, true, true]) = (initState [true, true, true], false)
    ∧ doDbscan (fun _ => [0, 0, 0])
        (evRound ⟨2⟩ (fun _ => [0, 0, 0]) (fun _ => [true, false, false])
          (initState [true, true, true])).1.iterMask = [0, 0, 0] := by decide

/-- Claim C3, amended: when a fitted cluster is discarded because fewer than
2 of its points are inliers, no track id is assigned and the per-event state
is completely unchanged — in particular the cluster's points keep their
eligibility for subsequent clustering rounds and stay unlabeled unless a
later round assigns them. -/
theorem claim_C3_amended (cfg : Config) (rO : List Bool → List Bool) (labels : List Int)
    (lab : Int) (st : EvState)
    (hfit : cfg.ransacMinSamples < (clusterMask labels lab).count true)
    (hrej : (inlierMask rO labels lab).count true < 2) :
    processClusterI cfg rO labels lab st = (st, true) :=
  processClusterI_reject cfg rO labels lab st (by omega) hrej

/-- Witness for the amended C3 at a concrete discarded cluster. -/
theorem claim_C3_amended_witness :
    2 < (clusterMask [1, 1, 1, 1] 1).count true
    ∧ (inlierMask (fun _ => [false, true, false, false]) [1, 1, 1, 1] 1).count true < 2
    ∧ processClusterI ⟨2⟩ (fun _ => [false, true, false, false]) [1, 1, 1, 1] 1
        (initState [true, true, true, true]) = (initState [true, true, true, true], true) :=
  ⟨by decide, by decide,
   claim_C3_amended ⟨2⟩ (fun _ => [false, true, false, false]) [1, 1, 1, 1] 1
     (initState [true, true, true, true]) (by decide) (by decide)⟩

/-- Claim C4, counterexample: a degenerate event with a single valid hit
(fewer than 2) makes the loop run forever when the clustering oracle returns
the lone point as a singleton cluster (DBSCAN with `min_samples = 1`): the
cluster is skipped, the labels are not all noise, an eligible point remains,
and the state recurs — processing does not continue past this event. -/
theorem claim_C4_counterexample :
    ([true] : List Bool).count true < 2
    ∧ neverHalts ⟨3⟩ (fun _ => [0]) (fun _ => [false]) (initState [true]) :=
  ⟨by decide,
   fun fuel => evLoop_none_of_fixpoint ⟨3⟩ (fun _ => [0]) (fun _ => [false])
     (initState [true]) (by decide) fuel⟩

/-- Claim C4, amended: degenerate inputs contribute zero tracks — an event
with fewer than 2 valid hits can only ever halt in its initial state (no
label assigned, no track), and a round whose clustering yields only noise
breaks immediately with the state unchanged; but the loop is not guaranteed
to terminate on every degenerate input, so error-free continuation holds
only when each round either accepts a cluster or yields only noise. -/
theorem claim_C4_amended (cfg : Config) (dO : List Bool → List Int)
    (rO : List Bool → List Bool) (valid : List Bool) (st : EvState) :
    (∀ fuel st', valid.count true < 2 →
        evLoop cfg dO rO fuel (initState valid) = some st' → st' = initState valid)
    ∧ ((doDbscan dO st.iterMask).all (fun l => l == -1) = true →
        evRound cfg dO rO st = (st, true)) := by
  constructor
  · intro fuel st' hdeg hrun
    exact evLoop_fix_state cfg dO rO (initState valid)
      (evRound_degenerate cfg dO rO valid hdeg) fuel st' hrun
  · intro hall
    have hempty : uniqueLabels (doDbscan dO st.iterMask) = [] := by
      rw [uniqueLabels, List.filter_eq_nil_iff.mpr ?_]
      · rfl
      · intro a ha
        have := List.all_eq_true.mp hall a ha
        simp [this]
    have h1 : (uniqueLabels (doDbscan dO st.iterMask)).foldl
        (fun s lab => processCluster cfg rO (doDbscan dO st.iterMask) lab s) st = st := by
      rw [hempty]; rfl
    show ((uniqueLabels (doDbscan dO st.iterMask)).foldl
        (fun s lab => processCluster cfg rO (doDbscan dO st.iterMask) lab s) st,
      (doDbscan dO st.iterMask).all (fun l => l == -1)
        || !(((uniqueLabels (doDbscan dO st.iterMask)).foldl
            (fun s lab => processCluster cfg rO (doDbscan dO st.iterMask) lab s)
            st).iterMask.any (fun b => b))) = (st, true)
    rw [h1, hall]
    simp

/-- Witness for the amended C4 at a concrete degenerate event (no valid hit)
whose clustering round is all noise: the loop halts in the initial state. -/
theorem claim_C4_amended_witness :
    ([false] : List Bool).count true < 2
    ∧ evLoop ⟨2⟩ (fun _ => [-1]) (fun _ => []) 1 (initState [false]) = some (initState [false])
    ∧ initState [false] = initState [false]
    ∧ (doDbscan (fun _ => ([-1] : List Int)) (initState [false]).iterMask).all
        (fun l => l == -1) = true
    ∧ evRound ⟨2⟩ (fun _ => [-1]) (fun _ => []) (initState [false]) = (initState [false], true) :=
  ⟨by decide, by decide,
   (claim_C4_amended ⟨2⟩ (fun _ => [-1]) (fun _ => []) [false] (initState [false])).1
     1 (initState [false]) (by decide) (by decide),
   by decide,
   (claim_C4_amended ⟨2⟩ (fun _ => [-1]) (fun _ => []) [false] (initState [false])).2
     (by decide)⟩

/-- Claim C8: a robust line fit is attempted on a non-noise cluster if and
only if the cluster has strictly more points than `ransac_min_samples`
(`np.sum(mask) <= self._ransac_min_samples` skips, line 132); a cluster at or
below that size is skipped with the state untouched and no fit attempted. -/
theorem claim_C8 (cfg : Config) (rO : List Bool → List Bool) (labels : List Int)
    (lab : Int) (st : EvState) (hlab : lab ≠ -1) :
    ((processClusterI cfg rO labels lab st).2 = true ↔
      cfg.ransacMinSamples < (clusterMask labels lab).count true)
    ∧ ((clusterMask labels lab).count true ≤ cfg.ransacMinSamples →
      processClusterI cfg rO labels lab st = (st, false)) := by
  constructor
  · by_cases h : (clusterMask labels lab).count true ≤ cfg.ransacMinSamples
    · rw [processClusterI_skip cfg rO labels lab st h]
      constructor
      · intro hx; simp at hx
      · intro hx; omega
    · constructor
      · intro _; omega
      · intro _
        by_cases h2 : (inlierMask rO labels lab).count true < 2
        · rw [processClusterI_reject cfg rO labels lab st h h2]
        · rw [processClusterI_accept cfg rO labels lab st h h2]
  · exact processClusterI_skip cfg rO labels lab st

/-- Witness for C8 at a concrete non-noise cluster of 3 points above the
threshold 2. -/
theorem claim_C8_witness :
    (0 : Int) ≠ -1
    ∧ ((processClusterI ⟨2⟩ (fun _ => [true, true, true]) [0, 0, 0] 0
          (initState [true, true, true])).2 = true ↔
        2 < (clusterMask [0, 0, 0] 0).count true)
    ∧ ((clusterMask [0, 0, 0] 0).count true ≤ 2 →
        processClusterI ⟨2⟩ (fun _ => [true, true, true]) [0, 0, 0] 0
          (initState [true, true, true]) = (initState [true, true, true], false)) :=
  ⟨by decide,
   (claim_C8 ⟨2⟩ (fun _ => [true, true, true]) [0, 0, 0] 0 (initState [true, true, true])
     (by decide)).1,
   (claim_C8 ⟨2⟩ (fun _ => [true, true, true]) [0, 0, 0] 0 (initState [true, true, true])
     (by decide)).2⟩

/-! ## The label invariant of `find_tracks` (claim C5) -/

theorem getD_replicate_neg (n : Nat) (i : Nat) :
    (List.replicate n (-1 : Int)).getD i (-1) = -1 := by
  by_cases hi : i < n
  · rw [List.getD_eq_getElem _ _ (by simpa using hi), List.getElem_replicate]
  · exact List.getD_eq_default _ _ (by simpa using hi)

theorem mem_of_getD (l : List Int) (i : Nat) (v : Int) (hi : i < l.length)
    (h : l.getD i (-1) = v) : v ∈ l := by
  rw [List.getD_eq_getElem _ _ hi] at h
  exact h ▸ List.getElem_mem hi

theorem wf_initState (valid : List Bool) : WF valid (initState valid) := by
  constructor
  · simp [initState]
  · rfl
  · intro i h; exact h
  · intro i h; exact absurd (getD_replicate_neg valid.length i) h
  · intro i h; exact absurd (getD_replicate_neg valid.length i) h
  · intro v hv; exact Or.inl (List.mem_replicate.mp hv).2
  · intro k h0 h1; exact absurd (le_trans h0 h1) (by norm_num [initState])
  · exact le_refl _

/-- Positions outside an accepted cluster keep their label and eligibility. -/
theorem accept_preserves_other (rO : List Bool → List Bool) (labels : List Int) (lab : Int)
    (stk : EvState) (valid : List Bool) (hwfk : WF valid stk)
    (hlen : labels.length = valid.length) (i : Nat)
    (hne : labels.getD i (-1) ≠ lab) :
    (removeMask (inlierMask rO labels lab) stk.iterMask).getD i false
        = stk.iterMask.getD i false
    ∧ (assignMask (inlierMask rO labels lab) (stk.currentTrackId + 1) stk.trackId).getD i (-1)
        = stk.trackId.getD i (-1) := by
  have hinl : (inlierMask rO labels lab).getD i false = false := by
    cases hc : (inlierMask rO labels lab).getD i false with
    | false => rfl
    | true => exact absurd (inlierMask_sub rO labels lab i hc).1 hne
  by_cases hb : i < valid.length
  · constructor
    · rw [getD_removeMask _ _ i (by rw [length_inlierMask, hlen]; exact hb)
        (by rw [hwfk.len_iterMask]; exact hb), hinl]
      simp
    · rw [getD_assignMask _ _ _ i (by rw [length_inlierMask, hlen]; exact hb)
        (by rw [hwfk.len_trackId]; exact hb), hinl]
      simp
  · constructor
    · rw [List.getD_eq_default _ _
          (by rw [length_removeMask, length_inlierMask, hlen, hwfk.len_iterMask]; omega),
        List.getD_eq_default _ _ (by rw [hwfk.len_iterMask]; omega)]
    · rw [List.getD_eq_default _ _
          (by rw [length_assignMask, length_inlierMask, hlen, hwfk.len_trackId]; omega),
        List.getD_eq_default _ _ (by rw [hwfk.len_trackId]; omega)]

/-- Accepting a cluster preserves the loop invariant: the accepted slots were
eligible, valid and unlabeled, they receive the fresh label
`current_track_id + 1`, and at least one slot carries it. -/
theorem wf_accept (valid : List Bool) (st0 stk : EvState) (rO : List Bool → List Bool)
    (labels : List Int) (lab : Int)
    (hwf0 : WF valid st0) (hwfk : WF valid stk)
    (hlab : ∀ i, labels.getD i (-1) ≠ -1 → st0.iterMask.getD i false = true)
    (hlen : labels.length = valid.length)
    (hlabne : lab ≠ -1)
    (huntouched : ∀ i, labels.getD i (-1) = lab →
        stk.iterMask.getD i false = st0.iterMask.getD i false
        ∧ stk.trackId.getD i (-1) = st0.trackId.getD i (-1))
    (hcnt : 2 ≤ (inlierMask rO labels lab).count true) :
    WF valid
      { trackId := assignMask (inlierMask rO labels lab) (stk.currentTrackId + 1) stk.trackId
        iterMask := removeMask (inlierMask rO labels lab) stk.iterMask
        currentTrackId := stk.currentTrackId + 1 } := by
  have hlenInl : (inlierMask rO labels lab).length = valid.length := by
    rw [length_inlierMask, hlen]
  have hkey : ∀ i, (inlierMask rO labels lab).getD i false = true →
      i < valid.length ∧ valid.getD i false = true ∧ stk.trackId.getD i (-1) = -1
        ∧ stk.iterMask.getD i false = true := by
    intro i hi
    obtain ⟨heq, hilt⟩ := inlierMask_sub rO labels lab i hi
    have hne : labels.getD i (-1) ≠ -1 := by rw [heq]; exact hlabne
    have h0elig : st0.iterMask.getD i false = true := hlab i hne
    have hvalid : valid.getD i false = true := hwf0.elig_valid i h0elig
    have h0id : st0.trackId.getD i (-1) = -1 := by
      by_contra hx
      rw [hwf0.labeled_inelig i hx] at h0elig
      exact absurd h0elig (by simp)
    obtain ⟨hu1, hu2⟩ := huntouched i heq
    refine ⟨by omega, hvalid, by rw [hu2]; exact h0id, by rw [hu1]; exact h0elig⟩
  have hTid : ∀ i, i < valid.length →
      (assignMask (inlierMask rO labels lab) (stk.currentTrackId + 1) stk.trackId).getD i (-1)
        = if (inlierMask rO labels lab).getD i false then stk.currentTrackId + 1
          else stk.trackId.getD i (-1) := by
    intro i hb
    exact getD_assignMask _ _ _ i (by rw [hlenInl]; exact hb) (by rw [hwfk.len_trackId]; exact hb)
  have hIm : ∀ i, i < valid.length →
      (removeMask (inlierMask rO labels lab) stk.iterMask).getD i false
        = if (inlierMask rO labels lab).getD i false then false
          else stk.iterMask.getD i false := by
    intro i hb
    exact getD_removeMask _ _ i (by rw [hlenInl]; exact hb) (by rw [hwfk.len_iterMask]; exact hb)
  have hlenT : (assignMask (inlierMask rO labels lab) (stk.currentTrackId + 1)
      stk.trackId).length = valid.length := by
    rw [length_assignMask, hlenInl, hwfk.len_trackId]; omega
  have hlenI : (removeMask (inlierMask rO labels lab) stk.iterMask).length = valid.length := by
    rw [length_removeMask, hlenInl, hwfk.len_iterMask]; omega
  constructor
  · exact hlenT
  · exact hlenI
  · intro i h
    dsimp only at h
    by_cases hb : i < valid.length
    · rw [hIm i hb] at h
      cases hc : (inlierMask rO labels lab).getD i false with
      | true => rw [hc, if_pos rfl] at h; exact absurd h Bool.false_ne_true
      | false =>
        rw [hc, if_neg Bool.false_ne_true] at h
        exact hwfk.elig_valid i h
    · rw [List.getD_eq_default _ _ (by rw [hlenI]; omega)] at h
      exact absurd h Bool.false_ne_true
  · intro i h
    dsimp only at h
    by_cases hb : i < valid.length
    · rw [hTid i hb] at h
      cases hc : (inlierMask rO labels lab).getD i false with
      | true => exact (hkey i hc).2.1
      | false =>
        rw [hc, if_neg Bool.false_ne_true] at h
        exact hwfk.labeled_valid i h
    · rw [List.getD_eq_default _ _ (by rw [hlenT]; omega)] at h
      exact absurd rfl h
  · intro i h
    dsimp only at h ⊢
    by_cases hb : i < valid.length
    · rw [hTid i hb] at h
      rw [hIm i hb]
      cases hc : (inlierMask rO labels lab).getD i false with
      | true => exact if_pos rfl
      | false =>
        rw [hc, if_neg Bool.false_ne_true] at h
        rw [if_neg Bool.false_ne_true]
        exact hwfk.labeled_inelig i h
    · exact List.getD_eq_default _ _ (by rw [hlenI]; omega)
  · intro v hv
    dsimp only at hv ⊢
    obtain ⟨j, hj, hje⟩ := List.mem_iff_getElem.mp hv
    have hb : j < valid.length := by
      rw [show (assignMask (inlierMask rO labels lab) (stk.currentTrackId + 1)
        stk.trackId).length = valid.length from hlenT] at hj
      exact hj
    rw [← List.getD_eq_getElem _ (-1) hj, hTid j hb] at hje
    cases hc : (inlierMask rO labels lab).getD j false with
    | true =>
      rw [hc, if_pos rfl] at hje
      right
      have := hwfk.cur_ge
      constructor <;> omega
    | false =>
      rw [hc, if_neg Bool.false_ne_true] at hje
      have hmem : v ∈ stk.trackId :=
        mem_of_getD stk.trackId j v (by rw [hwfk.len_trackId]; exact hb) hje
      rcases hwfk.values_le v hmem with h | ⟨h0, h1⟩
      · exact Or.inl h
      · exact Or.inr ⟨h0, by omega⟩
  · intro k h0 h1
    dsimp only at h1 ⊢
    by_cases hk : k = stk.currentTrackId + 1
    · obtain ⟨i, hilen, hig⟩ := exists_getD_of_count_pos (inlierMask rO labels lab) (by omega)
      have hb : i < valid.length := by rw [← hlenInl]; exact hilen
      refine mem_of_getD _ i k (by rw [show (assignMask (inlierMask rO labels lab)
        (stk.currentTrackId + 1) stk.trackId).length = valid.length from hlenT]; exact hb) ?_
      rw [hTid i hb, hig, if_pos rfl, hk]
    · have hkle : k ≤ stk.currentTrackId := by omega
      have hmem : k ∈ stk.trackId := hwfk.surj k h0 hkle
      obtain ⟨j, hj, hje⟩ := List.mem_iff_getElem.mp hmem
      have hb : j < valid.length := by rw [← hwfk.len_trackId]; exact hj
      rw [← List.getD_eq_getElem _ (-1) hj] at hje
      cases hc : (inlierMask rO labels lab).getD j false with
      | true =>
        have hz := (hkey j hc).2.2.1
        rw [hz] at hje
        omega
      | false =>
        refine mem_of_getD _ j k (by rw [show (assignMask (inlierMask rO labels lab)
          (stk.currentTrackId + 1) stk.trackId).length = valid.length from hlenT]; exact hb) ?_
        rw [hTid j hb, hc, if_neg Bool.false_ne_true]
        exact hje
  · dsimp only
    have := hwfk.cur_ge
    omega

/-- Processing the clusters of one round preserves the loop invariant. -/
theorem fold_wf (cfg : Config) (rO : List Bool → List Bool) (labels : List Int)
    (valid : List Bool) (st0 : EvState)
    (hwf0 : WF valid st0)
    (hlab : ∀ i, labels.getD i (-1) ≠ -1 → st0.iterMask.getD i false = true)
    (hlen : labels.length = valid.length) :
    ∀ (L : List Int) (stk : EvState),
      L.Nodup →
      (∀ lab ∈ L, lab ≠ -1) →
      WF valid stk →
      (∀ i, labels.getD i (-1) ∈ L →
        stk.iterMask.getD i false = st0.iterMask.getD i false
        ∧ stk.trackId.getD i (-1) = st0.trackId.getD i (-1)) →
      WF valid (L.foldl (fun s lab => processCluster cfg rO labels lab s) stk) := by
  intro L
  induction L with
  | nil => intro stk _ _ hwfk _; exact hwfk
  | cons lab L ih =>
    intro stk hnd hne hwfk huntouched
    rw [List.foldl_cons]
    rcases processCluster_cases cfg rO labels lab stk with hstep | ⟨hstep, hcnt⟩
    · rw [hstep]
      exact ih stk (List.nodup_cons.mp hnd).2 (fun l hl => hne l (List.mem_cons_of_mem _ hl))
        hwfk (fun i hi => huntouched i (List.mem_cons_of_mem _ hi))
    · rw [hstep]
      have hlabne : lab ≠ -1 := hne lab (List.mem_cons_self _ _)
      have hwf1 := wf_accept valid st0 stk rO labels lab hwf0 hwfk hlab hlen hlabne
        (fun i hi => huntouched i (by rw [hi]; exact List.mem_cons_self _ _)) hcnt
      apply ih _ (List.nodup_cons.mp hnd).2 (fun l hl => hne l (List.mem_cons_of_mem _ hl)) hwf1
      intro i hi
      have hine : labels.getD i (-1) ≠ lab := by
        intro hx
        rw [hx] at hi
        exact absurd hi (List.nodup_cons.mp hnd).1
      obtain ⟨h1, h2⟩ := accept_preserves_other rO labels lab stk valid hwfk hlen i hine
      obtain ⟨h3, h4⟩ := huntouched i (List.mem_cons_of_mem _ hi)
      exact ⟨by rw [h1]; exact h3, by rw [h2]; exact h4⟩

/-- One clustering round preserves the loop invariant. -/
theorem evRound_wf (cfg : Config) (dO : List Bool → List Int) (rO : List Bool → List Bool)
    (valid : List Bool) (st : EvState) (hwf : WF valid st) :
    WF valid (evRound cfg dO rO st).1 :=
  fold_wf cfg rO (doDbscan dO st.iterMask) valid st hwf
    (fun i hi => (doDbscan_elig dO st.iterMask i hi).1)
    (by rw [length_doDbscan, hwf.len_iterMask])
    (uniqueLabels (doDbscan dO st.iterMask)) st
    (uniqueLabels_nodup _)
    (fun lab hm => ((uniqueLabels_mem _ _).mp hm).2)
    hwf (fun i _ => ⟨rfl, rfl⟩)

/-- The loop preserves the invariant up to whatever state it halts in. -/
theorem evLoop_wf (cfg : Config) (dO : List Bool → List Int) (rO : List Bool → List Bool)
    (valid : List Bool) :
    ∀ fuel (st st' : EvState), WF valid st →
      evLoop cfg dO rO fuel st = some st' → WF valid st' := by
  intro fuel
  induction fuel with
  | zero => intro st st' _ h; exact absurd h (by simp [evLoop])
  | succ fuel ih =>
    intro st st' hwf h
    simp only [evLoop] at h
    split at h
    · exact Option.some.inj h ▸ evRound_wf cfg dO rO valid st hwf
    · exact ih _ st' (evRound_wf cfg dO rO valid st hwf) h

/-- Claim C5: whenever the per-event loop of `find_tracks` halts, every hit's
label is either -1 or a non-negative index strictly below the number of
accepted clusters of the event (`current_track_id + 1` — the counter is
incremented exactly once per accepted cluster, starting from -1); labels are
assigned contiguously from 0 with no gaps (every index below an assigned one
is also assigned), and invalid (masked) hits always remain unlabeled. -/
theorem claim_C5 (cfg : Config) (dO : List Bool → List Int) (rO : List Bool → List Bool)
    (valid : List Bool) (fuel : Nat) (st' : EvState)
    (hrun : findTracksEvent cfg dO rO valid fuel = some st') :
    (∀ v ∈ st'.trackId, v = -1 ∨ (0 ≤ v ∧ v < st'.currentTrackId + 1))
    ∧ (∀ k : Int, 0 ≤ k → k < st'.currentTrackId + 1 → k ∈ st'.trackId)
    ∧ (∀ i, valid.getD i false = false → st'.trackId.getD i (-1) = -1)
    ∧ st'.trackId.length = valid.length := by
  have hwf : WF valid st' :=
    evLoop_wf cfg dO rO valid fuel (initState valid) st' (wf_initState valid) hrun
  refine ⟨?_, ?_, ?_, hwf.len_trackId⟩
  · intro v hv
    rcases hwf.values_le v hv with h | ⟨h0, h1⟩
    · exact Or.inl h
    · exact Or.inr ⟨h0, by omega⟩
  · intro k h0 h1
    exact hwf.surj k h0 (by omega)
  · intro i hvalid
    by_contra hne
    exact absurd (hwf.labeled_valid i hne) (by rw [hvalid]; simp)

/-- Witness for C5 on a concrete two-round run that accepts one cluster of
two hits and then halts: the returned labels are `[0, 0, -1]` with one
accepted cluster. -/
theorem claim_C5_witness :
    findTracksEvent ⟨2⟩ (fun m => if m.count true = 3 then [0, 0, 0] else [-1, -1, -1])
        (fun _ => [true, true, false]) [true, true, true] 5 =
      some { trackId := [0, 0, -1], iterMask := [false, false, true], currentTrackId := 0 }
    ∧ ((0 : Int) = -1 ∨ (0 ≤ (0 : Int) ∧ (0 : Int) < 0 + 1))
    ∧ (0 : Int) ∈ ([0, 0, -1] : List Int)
    ∧ ([true, true, true] : List Bool).getD 5 false = false
    ∧ ([0, 0, -1] : List Int).getD 5 (-1) = -1 :=
  ⟨by decide,
   (claim_C5 ⟨2⟩ (fun m => if m.count true = 3 then [0, 0, 0] else [-1, -1, -1])
      (fun _ => [true, true, false]) [true, true, true] 5
      { trackId := [0, 0, -1], iterMask := [false, false, true], currentTrackId := 0 }
      (by decide)).1 0 (by decide),
   (claim_C5 ⟨2⟩ (fun m => if m.count true = 3 then [0, 0, 0] else [-1, -1, -1])
      (fun _ => [true, true, false]) [true, true, true] 5
      { trackId := [0, 0, -1], iterMask := [false, false, true], currentTrackId := 0 }
      (by decide)).2.1 0 (by decide) (by decide),
   by decide,
   (claim_C5 ⟨2⟩ (fun m => if m.count true = 3 then [0, 0, 0] else [-1, -1, -1])
      (fun _ => [true, true, false]) [true, true, true] 5
      { trackId := [0, 0, -1], iterMask := [false, false, true], currentTrackId := 0 }
      (by decide)).2.2.1 5 (by decide)⟩

/-! ## Durable-id assignment (claim C7) -/

theorem placeRow_ids (row : List Bool) : ∀ c : Nat,
    (placeRow c row).1.filterMap (fun x => x) = List.range' c (row.count true) := by
  induction row with
  | nil => intro c; rfl
  | cons x r ih =>
    intro c
    cases x with
    | true =>
      show ((some c) :: (placeRow (c + 1) r).1).filterMap (fun x => x) = _
      simp only [List.filterMap_cons, List.count_cons, ih (c + 1)]
      simp [List.range'_succ]
    | false =>
      show (none :: (placeRow c r).1).filterMap (fun x => x) = _
      simp only [List.filterMap_cons, List.count_cons, ih c]
      simp

theorem placeRow_next (row : List Bool) : ∀ c : Nat,
    (placeRow c row).2 = c + row.count true := by
  induction row with
  | nil => intro c; simp [placeRow]
  | cons x r ih =>
    intro c
    cases x with
    | true =>
      show (placeRow (c + 1) r).2 = _
      rw [ih (c + 1), List.count_cons]
      simp; omega
    | false =>
      show (placeRow c r).2 = _
      rw [ih c, List.count_cons]
      simp

theorem placeTable_ids (tbl : List (List Bool)) : ∀ s : Nat,
    assignedIds (placeTable s tbl) = List.range' s (tbl.flatten.count true) := by
  induction tbl with
  | nil => intro s; rfl
  | cons row rows ih =>
    intro s
    show ((placeRow s row).1 :: placeTable (placeRow s row).2 rows).flatten.filterMap
        (fun x => x) = List.range' s ((row :: rows).flatten.count true)
    rw [List.flatten_cons, List.filterMap_append, placeRow_ids row s, placeRow_next row s]
    have hmain := ih (s + row.count true)
    rw [assignedIds] at hmain
    rw [hmain, List.flatten_cons, List.count_append]
    have := List.range'_append s (row.count true) (rows.flatten.count true) 1
    simp only [one_mul] at this
    rw [this, Nat.add_comm]

/-- Claim C7: the Track Emitter hands out durable ids to the valid track
slots of a batch as exactly the contiguous reserved range
`[s, s + n_tracks)`, in strictly increasing row-major order over
(event, local track-id), hence unique. -/
theorem claim_C7 (s : Nat) (tbl : List (List Bool)) :
    assignedIds (placeTable s tbl) = List.range' s (tbl.flatten.count true)
    ∧ (assignedIds (placeTable s tbl)).Pairwise (· < ·)
    ∧ (assignedIds (placeTable s tbl)).Nodup := by
  refine ⟨placeTable_ids tbl s, ?_, ?_⟩
  · rw [placeTable_ids tbl s]
    exact List.pairwise_lt_range' s _ 1
  · rw [placeTable_ids tbl s]
    exact List.nodup_range' s _

/-! ## Reference-point computation (claim C9) -/

/-- Claim C9: when the axis's z-component is nonzero, `xyp` returns the
(x, y) of the point where the line through the centroid along the axis
meets the `z = 0` plane (that point's z-coordinate is 0); when the
z-component is exactly zero it returns the centroid's (x, y); the division
by the z-component is taken only in the nonzero branch, and the function is
total. -/
theorem claim_C9 (axis centroid : Vec3) :
    (axis.2.2 = 0 → xyp axis centroid = (centroid.1, centroid.2.1))
    ∧ (axis.2.2 ≠ 0 →
        (vadd centroid (vsmul (-centroid.2.2 / axis.2.2) axis)).2.2 = 0
        ∧ xyp axis centroid =
          ((vadd centroid (vsmul (-centroid.2.2 / axis.2.2) axis)).1,
           (vadd centroid (vsmul (-centroid.2.2 / axis.2.2) axis)).2.1)) := by
  constructor
  · intro h
    rw [xyp, if_pos h]
  · intro h
    refine ⟨?_, by rw [xyp, if_neg h]⟩
    show centroid.2.2 + -centroid.2.2 / axis.2.2 * axis.2.2 = 0
    field_simp

/-- Witness for C9, both branches at concrete axes. -/
theorem claim_C9_witness :
    xyp (1, 2, 0) (3, 4, 5) = (3, 4)
    ∧ ((vadd (3, 4, 7) (vsmul (-(3, 4, (7 : ℚ)).2.2 / ((0 : ℚ), (0 : ℚ), (1 : ℚ)).2.2)
          (0, 0, 1))).2.2 = 0
       ∧ xyp (0, 0, 1) (3, 4, 7) =
          ((vadd (3, 4, 7) (vsmul (-(3, 4, (7 : ℚ)).2.2 / ((0 : ℚ), (0 : ℚ), (1 : ℚ)).2.2)
              (0, 0, 1))).1,
           (vadd (3, 4, 7) (vsmul (-(3, 4, (7 : ℚ)).2.2 / ((0 : ℚ), (0 : ℚ), (1 : ℚ)).2.2)
              (0, 0, 1))).2.1)) :=
  ⟨(claim_C9 (1, 2, 0) (3, 4, 5)).1 rfl,
   (claim_C9 (0, 0, 1) (3, 4, 7)).2 (by norm_num)⟩

/-! ## Shape and masking of the track table (claims C6, C10, C1) -/

theorem getD_map_range {α : Type} (n : Nat) (f : Nat → α) (d : α) (j : Nat) (hj : j < n) :
    ((List.range n).map f).getD j d = f j := by
  rw [List.getD_eq_getElem _ _ (by simpa using hj), List.getElem_map, List.getElem_range]

/-- Claim C6: `calc_tracks` returns a dense rectangular table — one row per
event, one slot per local track id up to the batch maximum (`max + 1`
whenever some valid hit is labeled); a slot is masked (`none`) exactly when
its track has fewer than 2 member hits, and every unmasked slot's `nhit` is
the member count, at least 2. -/
theorem claim_C6 (cal : Calib) (pcaO : List Vec3 → Vec3) (hitsT : List (List Hit))
    (t0s : List Int) (labelT : List (List Int)) :
    (calcTracks cal pcaO hitsT t0s labelT).length = t0s.length
    ∧ (∀ row ∈ calcTracks cal pcaO hitsT t0s labelT, row.length = nTracks hitsT labelT)
    ∧ (∀ i j, i < t0s.length → j < nTracks hitsT labelT →
        (((calcTracks cal pcaO hitsT t0s labelT).getD i []).getD j none = none ↔
          (memberHits (hitsT.getD i []) (labelT.getD i []) (j : Int)).length < 2))
    ∧ (∀ i j t, ((calcTracks cal pcaO hitsT t0s labelT).getD i []).getD j none = some t →
        2 ≤ t.nhit ∧ t.nhit = (memberHits (hitsT.getD i []) (labelT.getD i []) (j : Int)).length)
    ∧ ((∃ l ∈ validLabels hitsT labelT, 0 ≤ l) →
        (nTracks hitsT labelT : Int) = imaxList (validLabels hitsT labelT) + 1) := by
  refine ⟨by simp [calcTracks], ?_, ?_, ?_, ?_⟩
  · intro row hr
    obtain ⟨i, _, hrow⟩ := List.mem_map.mp hr
    rw [← hrow]
    simp
  · intro i j hi hj
    rw [calcTracks, getD_map_range _ _ _ i hi, getD_map_range _ _ _ j hj, calcSlot]
    split
    next hlt => simpa using hlt
    next hlt => simpa using hlt
  · intro i j t h
    by_cases hi : i < t0s.length
    · by_cases hj : j < nTracks hitsT labelT
      · rw [calcTracks, getD_map_range _ _ _ i hi, getD_map_range _ _ _ j hj, calcSlot] at h
        split at h
        · exact absurd h (by simp)
        · next hlt =>
            have ht := Option.some.inj h
            rw [← ht]
            constructor
            · show (2 : Int) ≤ ((memberHits (hitsT.getD i []) (labelT.getD i [])
                (j : Int)).length : Int)
              omega
            · rfl
      · rw [List.getD_eq_default _ _ (by
          rw [calcTracks, getD_map_range _ _ _ i hi]; simpa using hj)] at h
        exact absurd h (by simp)
    · have hdef : (calcTracks cal pcaO hitsT t0s labelT).getD i [] = [] :=
        List.getD_eq_default _ _ (by simp [calcTracks]; omega)
      rw [hdef] at h
      simp at h
  · intro hex
    obtain ⟨l, hl, hl0⟩ := hex
    have hne : validLabels hitsT labelT ≠ [] := by
      intro hz; rw [hz] at hl; exact absurd hl (List.not_mem_nil l)
    have hmax : 0 ≤ imaxList (validLabels hitsT labelT) :=
      le_trans hl0 (mem_le_imaxList _ l hl)
    rw [nTracks, if_neg (by simpa using hne)]
    rw [Int.toNat_of_nonneg (by omega)]

/-- Witness for C6 on a concrete one-event batch with one accepted label. -/
theorem claim_C6_witness :
    (calcTracks bugCal (fun _ => (1, 0, 0)) [[bugHit 3 7, bugHit 4 8]] [0] [[0, 0]]).length = 1
    ∧ (((calcTracks bugCal (fun _ => (1, 0, 0)) [[bugHit 3 7, bugHit 4 8]] [0]
          [[0, 0]]).getD 0 []).getD 0 none = none ↔
        (memberHits [bugHit 3 7, bugHit 4 8] [0, 0] (0 : Int)).length < 2)
    ∧ (nTracks [[bugHit 3 7, bugHit 4 8]] [[0, 0]] : Int)
        = imaxList (validLabels [[bugHit 3 7, bugHit 4 8]] [[0, 0]]) + 1 :=
  ⟨(claim_C6 bugCal (fun _ => (1, 0, 0)) [[bugHit 3 7, bugHit 4 8]] [0] [[0, 0]]).1,
   (claim_C6 bugCal (fun _ => (1, 0, 0)) [[bugHit 3 7, bugHit 4 8]] [0] [[0, 0]]).2.2.1 0 0
     (by decide) (by decide),
   (claim_C6 bugCal (fun _ => (1, 0, 0)) [[bugHit 3 7, bugHit 4 8]] [0] [[0, 0]]).2.2.2.2
     (by decide)⟩

/-- Claim C10, counterexample: a batch with one valid hit that is unlabeled
(-1) makes `count_nonzero(~mask)` truthy, so `n_tracks = max + 1 = 0`: the
table has a row for the event but zero track-slot columns, not one. -/
theorem claim_C10_counterexample :
    (calcTracks bugCal (fun _ => (1, 0, 0)) [[bugHit 0 0]] [0] [[-1]]).length = 1
    ∧ ((calcTracks bugCal (fun _ => (1, 0, 0)) [[bugHit 0 0]] [0] [[-1]]).getD 0 [none]).length
        = 0
    ∧ (bugHit 0 0).valid = true := by
  refine ⟨by simp [calcTracks], ?_, rfl⟩
  have : nTracks [[bugHit 0 0]] [[-1]] = 0 := by decide
  rw [calcTracks, getD_map_range _ _ _ 0 (by simp), this]
  rfl

theorem rowpair_of_getD (hitsT : List (List Hit)) (labelT : List (List Int)) (i : Nat) :
    (hitsT.getD i []).zip (labelT.getD i []) = [] ∨
      (hitsT.getD i [], labelT.getD i []) ∈ hitsT.zip labelT := by
  by_cases h1 : i < hitsT.length
  · by_cases h2 : i < labelT.length
    · right
      have hz : i < (hitsT.zip labelT).length := by
        rw [List.length_zip]; omega
      have hze := @List.getElem_zip _ _ hitsT labelT i hz
      rw [List.getD_eq_getElem _ _ h1, List.getD_eq_getElem _ _ h2]
      exact hze ▸ List.getElem_mem hz
    · left
      rw [List.getD_eq_default labelT _ (by omega), List.zip_nil_right]
  · left
    rw [List.getD_eq_default hitsT _ (by omega)]
    rfl

theorem memberHits_nil_of_validLabels_nil (hitsT : List (List Hit)) (labelT : List (List Int))
    (h : validLabels hitsT labelT = []) (i : Nat) (j : Int) :
    memberHits (hitsT.getD i []) (labelT.getD i []) j = [] := by
  have hrows : ∀ p ∈ hitsT.zip labelT,
      (p.1.zip p.2).filterMap (fun q => if q.1.valid then some q.2 else none) = [] := by
    intro p hp
    exact List.flatten_eq_nil_iff.mp h _ (List.mem_map_of_mem _ hp)
  rw [memberHits, List.filter_eq_nil_iff.mpr ?_]
  · rfl
  · intro q hq
    rcases rowpair_of_getD hitsT labelT i with hz | hmem
    · rw [hz] at hq
      exact absurd hq (List.not_mem_nil q)
    · have hnone := List.filterMap_eq_nil_iff.mp (hrows _ hmem) q hq
      have hvalid : q.1.valid = false := by
        by_contra hv
        rw [if_pos (by simpa using hv)] at hnone
        exact absurd hnone (by simp)
      simp [hvalid]

/-- Claim C10, amended: the one-column all-masked fallback happens only when
the batch has no valid hit at all (`count_nonzero(~mask)` is zero); when
valid hits exist but every one of them is unlabeled, the table keeps its row
per event but has zero track-slot columns. -/
theorem claim_C10_amended (cal : Calib) (pcaO : List Vec3 → Vec3)
    (hitsT : List (List Hit)) (t0s : List Int) (labelT : List (List Int)) :
    (validLabels hitsT labelT = [] →
      ∀ row ∈ calcTracks cal pcaO hitsT t0s labelT,
        row.length = 1 ∧ ∀ slot ∈ row, slot = none)
    ∧ (validLabels hitsT labelT ≠ [] → (∀ l ∈ validLabels hitsT labelT, l = -1) →
      ∀ row ∈ calcTracks cal pcaO hitsT t0s labelT, row.length = 0) := by
  constructor
  · intro hnil row hrow
    have hw : nTracks hitsT labelT = 1 := by
      rw [nTracks, if_pos (by simp [hnil])]
    obtain ⟨i, _, hr⟩ := List.mem_map.mp hrow
    constructor
    · rw [← hr]; simp [hw]
    · intro slot hslot
      rw [← hr] at hslot
      obtain ⟨j, _, hs⟩ := List.mem_map.mp hslot
      rw [← hs, calcSlot, if_pos ?_]
      rw [memberHits_nil_of_validLabels_nil hitsT labelT hnil i (j : Int)]
      decide
  · intro hne hall row hrow
    have hmax : imaxList (validLabels hitsT labelT) = -1 := by
      have hle : imaxList (validLabels hitsT labelT) ≤ -1 :=
        imaxList_le _ _ hne (fun x hx => le_of_eq (hall x hx))
      have hge : (-1 : Int) ≤ imaxList (validLabels hitsT labelT) := by
        have hm : (-1 : Int) ∈ validLabels hitsT labelT := by
          have := headD_mem _ hne
          rwa [hall _ this] at this
        exact mem_le_imaxList _ _ hm
      omega
    have hw : nTracks hitsT labelT = 0 := by
      rw [nTracks, if_neg (by simpa using hne), hmax]
      rfl
    obtain ⟨i, _, hr⟩ := List.mem_map.mp hrow
    rw [← hr]
    simp [hw]

/-- Witness for the amended C10: a batch with only an invalid hit gets one
all-masked column; a batch with a valid but unlabeled hit gets zero
columns. -/
theorem claim_C10_amended_witness :
    validLabels [[invHit]] [[5]] = []
    ∧ (([none] : List (Option Track)).length = 1 ∧ ∀ slot ∈ ([none] : List (Option Track)),
        slot = none)
    ∧ validLabels [[bugHit 0 1]] [[-1]] ≠ []
    ∧ ([] : List (Option Track)).length = 0 :=
  ⟨by decide,
   (claim_C10_amended bugCal (fun _ => (1, 0, 0)) [[invHit]] [0] [[5]]).1 (by decide)
     [none] (by decide),
   by decide,
   (claim_C10_amended bugCal (fun _ => (1, 0, 0)) [[bugHit 0 1]] [0] [[-1]]).2 (by decide)
     (by decide) [] (by decide)⟩

/-- Claim C1 (code bug, `tracklet_reco.py` line 182): at the failing input
the accepted record reports `start` and `end` with the same spatial point
`r_min = (0,0,0)` — the source writes `r_min` into both — while the
reported length is `sqrt(4) = 2`: the length does not equal the Euclidean
distance (0) between the record's own start and end spatial coordinates,
and `end` is not the maximum-projection endpoint `(2,0,0)`. -/
theorem claim_C1_code_bug_eval :
    bugSlot.map (fun t => (t.start, t.stop, t.length_sq))
        = some (((0, 0, 0), 0), ((0, 0, 0), 5), 4)
    ∧ Real.sqrt ((4 : ℚ) : ℝ) = 2
    ∧ (2 : ℝ) ≠ 0 := by
  refine ⟨?_, ?_, by norm_num⟩
  · norm_num [bugSlot, calcSlot, memberHits, bugHit, bugCal, hitXyz, doPca, vmean, vsum,
      vadd, vsub, vsmul, vdot, projectedLimits, vminList, vmaxList, qminList, qmaxList,
      vclip, vmin, vmax, sqNorm, iminList, imaxList, List.zip, List.zipWith, List.filter,
      List.map, List.foldl, List.headD, min_def, max_def]
  · rw [show ((4 : ℚ) : ℝ) = (2 : ℝ) ^ 2 by norm_num]
    exact Real.sqrt_sq (by norm_num)

end TrackletReco
